import Mathlib

/-!
Verification development for the phantomdb status reconciliation engine.

The definitions below are a shallow embedding of the relational data model
and the two algorithms under study:

* `src/phantomdb/models.py` — the entity tables (`dicoms`, `bids`, `t1ws`,
  `bolds`, `dwis`), the derived tag views `b1000` / `b2000`, and the
  consolidated status view `log` (class `LogView`), together with the
  identity-extraction helpers `DICOM._extract_site` and
  `DICOM._extract_phantom_date`.
* `src/phantomdb/confluence.py` — the reconciliation merge
  `Log.merge_logs`, which left-merges the freshly exported `log` table with
  the previously published `(id, notes)` table, projects to the published
  column order, sorts by `(site, date)` and fills missing values with `""`.

Modelling conventions: calendar dates become order-preserving natural
numbers; SQL NULL and Python `None`/NaN become `Option.none`; DataFrames
become lists of typed rows (pandas row order is significant and is kept);
the pandas multi-column `sort_values` is a stable lexicographic sort
(pandas uses a stable lexsort whenever `by` lists several columns), modelled
with the stable `sortStable` below; synthetic autoincrement primary
keys and the uninterpreted `meta` JSON blobs are omitted because no studied
behavior reads them.
-/

namespace PhantomDB

/-- Calendar dates abstracted as order-preserving natural-number codes. -/
abbrev Day := Nat

/-- Row of table `dicoms` (class `DICOM` in models.py).  `id` is the primary
key (source filename stem); `day` is the filesystem creation date, always
present; `acquisition_day` is the optionally extracted embedded date. -/
structure DICOM where
  id : String
  site : String
  day : Day
  acquisition_day : Option Day
deriving Repr, DecidableEq

/-- Row of table `bids` (class `BIDS` in models.py).  The synthetic integer
primary key is omitted; `valid` is the tri-state validation outcome
(`none` when no validation artifact was found). -/
structure BIDS where
  dicom_id : Option String
  day : Option Day
  valid : Option Bool
deriving Repr, DecidableEq

/-- Common shape of the derivative tables `t1ws`, `bolds`, `dwis`
(classes `T1w`, `BOLD`, `DWI`, all sharing `ScanMixin`).  The
uninterpreted `meta` JSON blob is omitted. -/
structure Deriv where
  id : String
  dicom_id : Option String
deriving Repr, DecidableEq

/-- Database state: the five base tables read by the views. -/
structure DB where
  dicoms : List DICOM
  bids : List BIDS
  t1ws : List Deriv
  bolds : List Deriv
  dwis : List Deriv
deriving Repr, DecidableEq

/-- Contiguous-sublist test on character lists (substring search). -/
def containsSub (pat : List Char) : List Char → Bool
  | [] => pat.isEmpty
  | c :: rest => pat.isPrefixOf (c :: rest) || containsSub pat rest

/-- SQLite `LIKE '%pat%'`: substring containment, ASCII case-insensitive. -/
def sqlLikeContains (pat s : String) : Bool :=
  containsSub (pat.toList.map Char.toLower) (s.toList.map Char.toLower)

/-- Python `pat in s`: case-sensitive substring containment. -/
def pyContains (pat s : String) : Bool :=
  containsSub pat.toList s.toList

/-- The fixed closed set of site codes from the regular expression
`(ns|ws|sh|ui|uc|um)` in `DICOM._extract_site`, in alternation order. -/
def siteCodes : List String := ["ns", "ws", "sh", "ui", "uc", "um"]

/-- Try to match one of the site codes at the head of the character list,
case-insensitively, in alternation order (all codes are two characters). -/
def matchSiteAt : List Char → Option String
  | c1 :: c2 :: _ =>
      siteCodes.find? (fun code => code.toList == [c1.toLower, c2.toLower])
  | _ => none

/-- Leftmost-position scan of `re.search`: try each position left to right. -/
def searchSite : List Char → Option String
  | [] => none
  | c :: rest =>
    match matchSiteAt (c :: rest) with
    | some code => some code
    | none => searchSite rest

/-- Python `str.upper()` on ASCII text, written on the character list. -/
def strUpper (s : String) : String :=
  String.mk (s.toList.map Char.toUpper)

/-- `DICOM._extract_site`: search the stem for a site code (case-insensitive)
and upper-case the match; `none` models the raised failure when
`re.search` returns no match.  (Upper-casing the canonical lowercase code
equals upper-casing the matched text, since the match is case-insensitive.) -/
def extractSite (stem : String) : Option String :=
  (searchSite stem.toList).map strUpper

/-- Outcome of a Python call: a value, or a raised exception (by name). -/
inductive PyResult (α : Type) where
  | ok (val : α)
  | raises (exc : String)
deriving Repr, DecidableEq

/-- One `zipfile` archive member, with the `AcquisitionDate` header of its
contents pre-parsed to `Option Day` (absent when the field is missing). -/
structure ZipEntry where
  is_dir : Bool
  filename : String
  acq_date : Option Day
deriving Repr, DecidableEq

/-- `DICOM._extract_phantom_date`: if the path is not a zip archive, return
`None`.  Otherwise scan `filelist` for the first non-directory entry whose
name does not contain `"DICOMDIR"` and read its header.  If no such entry
exists the loop never assigns `header`, so the later use raises
`UnboundLocalError`; if the entry's `AcquisitionDate` field is missing,
`header.get` yields `None` and `strptime(None, ...)` raises `TypeError`. -/
def extract_phantom_date (isZip : Bool) (filelist : List ZipEntry) :
    PyResult (Option Day) :=
  if !isZip then .ok none
  else
    match filelist.find? (fun e => !e.is_dir && !(pyContains "DICOMDIR" e.filename)) with
    | none => .raises "UnboundLocalError"
    | some e =>
      match e.acq_date with
      | none => .raises "TypeError"
      | some d => .ok (some d)

/-- Stable insertion of `a` into `l`: `a` goes in front of the first element
`x` with `le a x`.  With a total `le`, elements strictly below `a` stay in
front of it and elements tied with `a` stay behind it, which is exactly how
a stable sort places an element that came earlier in the input. -/
def insOrd (le : α → α → Bool) (a : α) : List α → List α
  | [] => [a]
  | x :: xs => if le a x then a :: x :: xs else x :: insOrd le a xs

/-- Stable sort by a total preorder.  pandas `sort_values` with several
`by` columns performs a stable lexsort, and any two stable sorts under the
same total preorder produce the same list, so stable insertion sort is a
faithful executable model of it (and of the view's ORDER BY). -/
def sortStable (le : α → α → Bool) : List α → List α
  | [] => []
  | a :: xs => insOrd le a (sortStable le xs)

/-- Row of the derived tag views `b1000` / `b2000`. -/
structure TagRow where
  id : String
  dicom_id : Option String
  tag : String
deriving Repr, DecidableEq

/-- `B1000View`: restrict `dwis` to rows whose id is LIKE `'%b1000%'`, then
project `(id, dicom_id, CASE WHEN id LIKE '%b1000%' THEN 'Y' ELSE 'N' END)`. -/
def b1000View (dwis : List Deriv) : List TagRow :=
  (dwis.filter (fun d => sqlLikeContains "b1000" d.id)).map
    (fun d => ⟨d.id, d.dicom_id, if sqlLikeContains "b1000" d.id then "Y" else "N"⟩)

/-- `B2000View`: same as `b1000View` with keyword `b2000`. -/
def b2000View (dwis : List Deriv) : List TagRow :=
  (dwis.filter (fun d => sqlLikeContains "b2000" d.id)).map
    (fun d => ⟨d.id, d.dicom_id, if sqlLikeContains "b2000" d.id then "Y" else "N"⟩)

/-- Row of the consolidated status view `log` (class `LogView`). -/
structure LogRow where
  site : String
  date : Option Day
  dicom : Day
  bids : Option Day
  bids_validation : String
  t1w : String
  b1000 : String
  b2000 : String
  bold : String
  id : String
deriving Repr, DecidableEq

/-- The derivative-column CASE expression of `LogView`:
`CASE WHEN valid IS NULL OR valid = 0 THEN '' WHEN valid = 1 AND col IS NOT
NULL THEN 'Y' ELSE 'N' END`, where `present` is the IS-NOT-NULL test on the
joined column. -/
def derivCase (bvalid : Option Bool) (present : Bool) : String :=
  if bvalid = none || bvalid = some false then ""
  else if bvalid = some true && present then "Y"
  else "N"

/-- One joined row of `LogView`'s SELECT: the per-row column derivations.
`b`, `t`, `bo`, `b1`, `b2` are the (possibly NULL) left-join partners from
`bids`, `t1ws`, `bolds`, `b1000`, `b2000`. -/
def mkLogRow (d : DICOM) (b : Option BIDS) (t bo : Option Deriv)
    (b1 b2 : Option TagRow) : LogRow :=
  let bvalid : Option Bool := b.bind BIDS.valid
  { site := d.site
    date := d.acquisition_day
    dicom := d.day
    bids := b.bind BIDS.day
    bids_validation :=
      if bvalid = some true then "Y" else if bvalid = some false then "N" else ""
    t1w := derivCase bvalid (t.map Deriv.id).isSome
    b1000 := derivCase bvalid (b1.map TagRow.tag).isSome
    b2000 := derivCase bvalid (b2.map TagRow.tag).isSome
    bold := derivCase bvalid (bo.map Deriv.id).isSome
    id := d.id }

/-- Left-outer-join partners of one scan in `table`, keyed on a
`dicom_id`-style foreign key: when no row matches, a single NULL partner. -/
def optMatches (key : String) (fk : α → Option String) (table : List α) :
    List (Option α) :=
  let ms := table.filter (fun b => fk b == some key)
  if ms.isEmpty then [none] else ms.map some

/-- The joined rows contributed by one scan `d`: the cross product of its
left-outer-join partners in `bids`, `t1ws`, `bolds`, `b1000`, `b2000`,
each joined ON its `dicom_id` foreign key equalling `dicoms.id` (the join
conditions SQLAlchemy infers from the foreign keys). -/
def scanRows (db : DB) (d : DICOM) : List LogRow :=
  (optMatches d.id BIDS.dicom_id db.bids).flatMap (fun b =>
    (optMatches d.id Deriv.dicom_id db.t1ws).flatMap (fun t =>
      (optMatches d.id Deriv.dicom_id db.bolds).flatMap (fun bo =>
        (optMatches d.id TagRow.dicom_id (b1000View db.dwis)).flatMap (fun b1 =>
          (optMatches d.id TagRow.dicom_id (b2000View db.dwis)).map (fun b2 =>
            mkLogRow d b t bo b1 b2)))))

/-- The FROM/JOIN clause of `LogView`: start from `dicoms` and left-outer
join the five related tables per scan. -/
def logJoinRows (db : DB) : List LogRow :=
  db.dicoms.flatMap (scanRows db)

/-- ORDER BY key of `LogView`: `(DICOM.site, DICOM.day)` ascending. -/
def logLe (r1 r2 : LogRow) : Bool :=
  if r1.site = r2.site then decide (r1.dicom ≤ r2.dicom)
  else decide (r1.site < r2.site)

/-- The consolidated status view `log`: the joined rows in the view's
ORDER BY order. -/
def logView (db : DB) : List LogRow :=
  sortStable logLe (logJoinRows db)

/-- Row of the previously published table, already projected to
`[["id", "notes"]]` as in `Log.from_token`. -/
structure OldRow where
  id : String
  notes : Option String
deriving Repr, DecidableEq

/-- Published row shape after the merge: the ten view columns plus `notes`. -/
structure PubRow where
  site : String
  date : Option Day
  notes : Option String
  dicom : Day
  bids : Option Day
  bids_validation : String
  t1w : String
  b1000 : String
  b2000 : String
  bold : String
  id : String
deriving Repr, DecidableEq

/-- `newlog = oldlog.merge(self.oldlog, on=[\x22id\x22], how=\x22left\x22)`:
pandas left merge keyed on `id` — every left row survives; a left row with
no key match gets a NULL partner; one output row per matching right row. -/
def mergeLeft (newlog : List LogRow) (old : List OldRow) :
    List (LogRow × Option OldRow) :=
  newlog.flatMap (fun r =>
    let ms := old.filter (fun o => o.id == r.id)
    if ms.isEmpty then [(r, none)] else ms.map (fun o => (r, some o)))

/-- Combine a new-view row with its (possibly absent) old-table partner:
all computed columns come from the new row, `notes` from the partner. -/
def toPubRow (r : LogRow) (o : Option OldRow) : PubRow :=
  { site := r.site
    date := r.date
    notes := o.bind OldRow.notes
    dicom := r.dicom
    bids := r.bids
    bids_validation := r.bids_validation
    t1w := r.t1w
    b1000 := r.b1000
    b2000 := r.b2000
    bold := r.bold
    id := r.id }

/-- The column projection list of `Log.merge_logs` (its order is the order
written in the source: `notes` sits third, between `date` and `dicom`). -/
def projectionColumns : List String :=
  ["site", "date", "notes", "dicom", "bids", "bids_validation",
   "T1w", "b1000", "b2000", "bold", "id"]

/-- The merged rows before sorting, in pandas merge order. -/
def preMerged (newlog : List LogRow) (old : List OldRow) : List PubRow :=
  (mergeLeft newlog old).map (fun p => toPubRow p.1 p.2)

/-- Ordering on optional dates used by `sort_values`: missing values sort
last (`na_position` defaults to `\x22last\x22`). -/
def dateLe : Option Day → Option Day → Bool
  | some a, some b => decide (a ≤ b)
  | some _, none => true
  | none, some _ => false
  | none, none => true

/-- `sort_values(by=[\x22site\x22, \x22date\x22])` key: lexicographic on
`(site, date)`, missing dates last. -/
def keyLe (r1 r2 : PubRow) : Bool :=
  if r1.site = r2.site then dateLe r1.date r2.date
  else decide (r1.site < r2.site)

/-- The merged rows after the stable `(site, date)` sort. -/
def mergedRows (newlog : List LogRow) (old : List OldRow) : List PubRow :=
  sortStable keyLe (preMerged newlog old)

/-- A rendered table cell: a string or a date. -/
inductive CellV where
  | s (v : String)
  | d (v : Day)
deriving Repr, DecidableEq

/-- `.fillna(\x22\x22)`: a missing cell becomes the empty string. -/
def fillCell : Option CellV → CellV
  | none => .s ""
  | some v => v

/-- Cell of a merged row under a given column label (the DataFrame column
lookup used by the projection `newlog[[...]]`). -/
def colVal (r : PubRow) (c : String) : Option CellV :=
  if c = "site" then some (.s r.site)
  else if c = "date" then r.date.map .d
  else if c = "notes" then r.notes.map .s
  else if c = "dicom" then some (.d r.dicom)
  else if c = "bids" then r.bids.map .d
  else if c = "bids_validation" then some (.s r.bids_validation)
  else if c = "T1w" then some (.s r.t1w)
  else if c = "b1000" then some (.s r.b1000)
  else if c = "b2000" then some (.s r.b2000)
  else if c = "bold" then some (.s r.bold)
  else if c = "id" then some (.s r.id)
  else none

/-- Render one merged row in the published column order, nulls filled. -/
def rowCells (r : PubRow) : List CellV :=
  projectionColumns.map (fun c => fillCell (colVal r c))

/-- `Log.merge_logs`: left-merge the fresh view with the published
`(id, notes)` table, project to the published column order, sort by
`(site, date)` and fill missing values with `\x22\x22`.  The result is the
header row plus the rendered data rows. -/
def merge_logs (newlog : List LogRow) (old : List OldRow) :
    List String × List (List CellV) :=
  (projectionColumns, (mergedRows newlog old).map rowCells)

/-! Shared lemmas about the stable sort. -/

theorem insOrd_perm (le : α → α → Bool) (a : α) :
    ∀ l : List α, (insOrd le a l).Perm (a :: l)
  | [] => by simp [insOrd]
  | x :: xs => by
    simp only [insOrd]
    split
    · exact List.Perm.refl _
    · exact ((insOrd_perm le a xs).cons x).trans (List.Perm.swap a x xs)

theorem sortStable_perm (le : α → α → Bool) :
    ∀ l : List α, (sortStable le l).Perm l
  | [] => List.Perm.refl _
  | a :: xs =>
    (insOrd_perm le a (sortStable le xs)).trans ((sortStable_perm le xs).cons a)

theorem mem_insOrd {le : α → α → Bool} {a b : α} :
    ∀ {l : List α}, b ∈ insOrd le a l ↔ b = a ∨ b ∈ l := by
  intro l
  induction l with
  | nil => simp [insOrd]
  | cons x xs ih =>
    simp only [insOrd]
    split
    · simp [List.mem_cons]
    · simp only [List.mem_cons, ih]
      tauto

theorem insOrd_sorted {le : α → α → Bool}
    (trans : ∀ a b c, le a b = true → le b c = true → le a c = true)
    (total : ∀ a b, le a b = true ∨ le b a = true) (a : α) :
    ∀ {l : List α}, l.Pairwise (fun x y => le x y = true) →
      (insOrd le a l).Pairwise (fun x y => le x y = true)
  | [], _ => by simp [insOrd]
  | x :: xs, h => by
    rw [List.pairwise_cons] at h
    simp only [insOrd]
    split
    case isTrue hle =>
      refine List.pairwise_cons.mpr ⟨?_, List.pairwise_cons.mpr ⟨h.1, h.2⟩⟩
      intro y hy
      rcases List.mem_cons.mp hy with rfl | hy
      · exact hle
      · exact trans a x y hle (h.1 y hy)
    case isFalse hle =>
      refine List.pairwise_cons.mpr ⟨?_, insOrd_sorted trans total a h.2⟩
      intro y hy
      rcases mem_insOrd.mp hy with rfl | hy
      · exact (total _ x).resolve_left hle
      · exact h.1 y hy

theorem sortStable_sorted {le : α → α → Bool}
    (trans : ∀ a b c, le a b = true → le b c = true → le a c = true)
    (total : ∀ a b, le a b = true ∨ le b a = true) :
    ∀ l : List α, (sortStable le l).Pairwise (fun x y => le x y = true)
  | [] => List.Pairwise.nil
  | a :: xs => insOrd_sorted trans total a (sortStable_sorted trans total xs)

theorem filter_insOrd_neg {le : α → α → Bool} {p : α → Bool} {a : α}
    (hpa : p a = false) :
    ∀ l : List α, (insOrd le a l).filter p = l.filter p
  | [] => by simp [insOrd, hpa]
  | x :: xs => by
    simp only [insOrd]
    split
    · simp [List.filter_cons, hpa]
    · simp [List.filter_cons, filter_insOrd_neg hpa xs]

theorem filter_insOrd_pos {le : α → α → Bool} {p : α → Bool} {a : α}
    (hpa : p a = true) (hlow : ∀ x, le a x = false → p x = false) :
    ∀ l : List α, (insOrd le a l).filter p = a :: l.filter p
  | [] => by simp [insOrd, hpa]
  | x :: xs => by
    simp only [insOrd]
    split
    case isTrue _ => simp [List.filter_cons, hpa]
    case isFalse hle =>
      have hx : p x = false := hlow x (Bool.not_eq_true _ ▸ hle)
      simp [List.filter_cons, hx, filter_insOrd_pos hpa hlow xs]

theorem filter_sortStable {le : α → α → Bool} {p : α → Bool}
    (hcls : ∀ a x, p a = true → p x = true → le a x = true) :
    ∀ l : List α, (sortStable le l).filter p = l.filter p
  | [] => rfl
  | a :: xs => by
    simp only [sortStable]
    cases hpa : p a with
    | false =>
      rw [filter_insOrd_neg hpa, filter_sortStable hcls xs, List.filter_cons, hpa]
      simp
    | true =>
      have hlow : ∀ x, le a x = false → p x = false := by
        intro x hax
        cases hpx : p x with
        | false => rfl
        | true => rw [hcls a x hpa hpx] at hax; cases hax
      rw [filter_insOrd_pos hpa hlow, filter_sortStable hcls xs, List.filter_cons, hpa]
      simp

/-! Lemmas about the `(site, date)` sort key. -/

theorem dateLe_refl : ∀ d : Option Day, dateLe d d = true := by
  intro d
  cases d <;> simp [dateLe]

theorem dateLe_trans : ∀ a b c : Option Day,
    dateLe a b = true → dateLe b c = true → dateLe a c = true := by
  intro a b c h1 h2
  cases a <;> cases b <;> cases c <;> simp_all [dateLe]
  exact le_trans h1 h2

theorem dateLe_total : ∀ a b : Option Day,
    dateLe a b = true ∨ dateLe b a = true := by
  intro a b
  cases a <;> cases b <;> simp [dateLe]
  exact le_total _ _

theorem keyLe_total : ∀ r1 r2 : PubRow,
    keyLe r1 r2 = true ∨ keyLe r2 r1 = true := by
  intro r1 r2
  by_cases e : r1.site = r2.site
  · rw [keyLe, if_pos e, keyLe, if_pos e.symm]
    exact dateLe_total _ _
  · rw [keyLe, if_neg e, keyLe, if_neg (Ne.symm e)]
    rcases lt_or_gt_of_ne e with h | h
    · exact Or.inl (decide_eq_true h)
    · exact Or.inr (decide_eq_true h)

theorem keyLe_trans : ∀ r1 r2 r3 : PubRow,
    keyLe r1 r2 = true → keyLe r2 r3 = true → keyLe r1 r3 = true := by
  intro r1 r2 r3 h1 h2
  by_cases e12 : r1.site = r2.site <;> by_cases e23 : r2.site = r3.site
  · rw [keyLe, if_pos e12] at h1
    rw [keyLe, if_pos e23] at h2
    rw [keyLe, if_pos (e12.trans e23)]
    exact dateLe_trans _ _ _ h1 h2
  · rw [keyLe, if_neg (fun h => e23 (e12.symm.trans h))]
    rw [keyLe, if_neg e23] at h2
    rw [e12]
    exact h2
  · rw [keyLe, if_neg e12] at h1
    have hlt : r1.site < r3.site := e23 ▸ of_decide_eq_true h1
    rw [keyLe, if_neg (fun h => absurd (h ▸ hlt) (lt_irrefl _))]
    exact decide_eq_true hlt
  · rw [keyLe, if_neg e12] at h1
    rw [keyLe, if_neg e23] at h2
    have hlt : r1.site < r3.site :=
      lt_trans (of_decide_eq_true h1) (of_decide_eq_true h2)
    rw [keyLe, if_neg (fun h => absurd (h ▸ hlt) (lt_irrefl _))]
    exact decide_eq_true hlt

theorem keyLe_of_eq {r1 r2 : PubRow} (hs : r1.site = r2.site)
    (hd : r1.date = r2.date) : keyLe r1 r2 = true := by
  rw [keyLe, if_pos hs, hd]
  exact dateLe_refl _

/-! Site extraction lemmas. -/

theorem matchSiteAt_mem {l : List Char} {code : String}
    (h : matchSiteAt l = some code) : code ∈ siteCodes := by
  cases l with
  | nil => simp [matchSiteAt] at h
  | cons c1 t =>
    cases t with
    | nil => simp [matchSiteAt] at h
    | cons c2 rest =>
      simp only [matchSiteAt] at h
      exact List.mem_of_find?_eq_some h

theorem searchSite_mem : ∀ {l : List Char} {code : String},
    searchSite l = some code → code ∈ siteCodes := by
  intro l
  induction l with
  | nil => intro code h; simp [searchSite] at h
  | cons c rest ih =>
    intro code h
    rw [searchSite] at h
    cases hm : matchSiteAt (c :: rest) with
    | some s => rw [hm] at h; cases h; exact matchSiteAt_mem hm
    | none => rw [hm] at h; exact ih h

/-- C7: for every scan identifier string, site extraction either returns a
member of the fixed closed set of two-letter site codes upper-cased
(matching is case-insensitive), or fails (the `re.search` miss), never a
partial or incorrect match. -/
theorem extract_site_closed_set (stem : String) :
    extractSite stem = none ∨
      ∃ c, extractSite stem = some c ∧ c ∈ ["NS", "WS", "SH", "UI", "UC", "UM"] := by
  rw [extractSite]
  cases hs : searchSite stem.toList with
  | none => exact Or.inl rfl
  | some code =>
    refine Or.inr ⟨strUpper code, rfl, ?_⟩
    have hmem : code ∈ siteCodes := searchSite_mem hs
    simp only [siteCodes, List.mem_cons, List.not_mem_nil, or_false] at hmem
    rcases hmem with rfl | rfl | rfl | rfl | rfl | rfl <;> decide

/-- C8: evaluation of `_extract_phantom_date` on the boundary inputs.  A
non-archive yields `None` as the claim says, but an archive with no
suitable entry raises `UnboundLocalError` (the loop never assigns
`header`), and a suitable entry without an `AcquisitionDate` field raises
`TypeError` (`strptime(None, ...)`) — both contradicting the claim that
those conditions yield an absent value instead of an error. -/
theorem extract_phantom_date_behavior :
    extract_phantom_date false [] = .ok none ∧
    extract_phantom_date true [⟨true, "sub01/", none⟩] = .raises "UnboundLocalError" ∧
    extract_phantom_date true [⟨false, "DICOMDIR", some 5⟩] = .raises "UnboundLocalError" ∧
    extract_phantom_date true [⟨true, "sub01/", none⟩, ⟨false, "img1.dcm", none⟩] =
      .raises "TypeError" ∧
    extract_phantom_date true [⟨false, "img1.dcm", some 230507⟩] = .ok (some 230507) := by
  decide

/-- C9: every row produced by the `b1000` derived tag view (and likewise
`b2000`) carries tag value `"Y"`: the WHERE clause restricts the view to
DWI rows matching the keyword, so the `'N'` branch of the CASE is
unreachable. -/
theorem dwi_tag_views_always_Y (dwis : List Deriv) :
    (∀ r ∈ b1000View dwis, r.tag = "Y") ∧ (∀ r ∈ b2000View dwis, r.tag = "Y") := by
  constructor <;> intro r hr
  · simp only [b1000View, List.mem_map, List.mem_filter] at hr
    obtain ⟨d, ⟨_, hlike⟩, rfl⟩ := hr
    simp [hlike]
  · simp only [b2000View, List.mem_map, List.mem_filter] at hr
    obtain ⟨d, ⟨_, hlike⟩, rfl⟩ := hr
    simp [hlike]

/-- Witness for C9 at a concrete DWI table. -/
theorem dwi_tag_views_always_Y_witness :
    (⟨"sub-x_b1000_dwi", some "d1", "Y"⟩ : TagRow) ∈
        b1000View [⟨"sub-x_b1000_dwi", some "d1"⟩] ∧
      TagRow.tag ⟨"sub-x_b1000_dwi", some "d1", "Y"⟩ = "Y" :=
  ⟨by decide,
   (dwi_tag_views_always_Y [⟨"sub-x_b1000_dwi", some "d1"⟩]).1 _ (by decide)⟩

/-! Consolidated view: row decomposition and the forced-blank invariant. -/

theorem mem_logView {db : DB} {r : LogRow} (h : r ∈ logView db) :
    ∃ d b t bo b1 b2, d ∈ db.dicoms ∧ r = mkLogRow d b t bo b1 b2 := by
  have h2 : r ∈ logJoinRows db :=
    (sortStable_perm logLe (logJoinRows db)).mem_iff.mp h
  simp only [logJoinRows, scanRows, List.mem_flatMap, List.mem_map] at h2
  obtain ⟨d, hd, b, _, t, _, bo, _, b1, _, b2, _, heq⟩ := h2
  exact ⟨d, b, t, bo, b1, b2, hd, heq.symm⟩

theorem mkLogRow_blank (d : DICOM) (b : Option BIDS) (t bo : Option Deriv)
    (b1 b2 : Option TagRow)
    (h : (mkLogRow d b t bo b1 b2).bids_validation = "" ∨
         (mkLogRow d b t bo b1 b2).bids_validation = "N") :
    (mkLogRow d b t bo b1 b2).t1w = "" ∧ (mkLogRow d b t bo b1 b2).b1000 = "" ∧
      (mkLogRow d b t bo b1 b2).b2000 = "" ∧ (mkLogRow d b t bo b1 b2).bold = "" := by
  cases hbv : b.bind BIDS.valid with
  | none => simp [mkLogRow, derivCase, hbv]
  | some bv =>
    cases bv
    · simp [mkLogRow, derivCase, hbv]
    · exfalso
      simp [mkLogRow, hbv] at h

/-- C2: in every row of the consolidated status view, if `bids_validation`
is `""` or `"N"` then all four derivative-completeness columns (`T1w`,
`b1000`, `b2000`, `bold`) equal `""`. -/
theorem logView_forced_blank (db : DB) :
    ∀ r ∈ logView db, r.bids_validation = "" ∨ r.bids_validation = "N" →
      r.t1w = "" ∧ r.b1000 = "" ∧ r.b2000 = "" ∧ r.bold = "" := by
  intro r hr h
  obtain ⟨d, b, t, bo, b1, b2, hd, rfl⟩ := mem_logView hr
  exact mkLogRow_blank d b t bo b1 b2 h

/-- Concrete database for the C2 witness: one scan whose conversion failed
validation and which nevertheless has a T1w derivative. -/
def dbC2 : DB :=
  { dicoms := [⟨"ws9", "WS", 3, none⟩],
    bids := [⟨some "ws9", some 4, some false⟩],
    t1ws := [⟨"ws9t", some "ws9"⟩],
    bolds := [], dwis := [] }

/-- Witness for C2: the view row of that scan has `bids_validation = "N"`
and all four derivative columns blank. -/
theorem logView_forced_blank_witness :
    (⟨"WS", none, 3, some 4, "N", "", "", "", "", "ws9"⟩ : LogRow) ∈ logView dbC2 ∧
      ((⟨"WS", none, 3, some 4, "N", "", "", "", "", "ws9"⟩ : LogRow).t1w = "" ∧
       (⟨"WS", none, 3, some 4, "N", "", "", "", "", "ws9"⟩ : LogRow).b1000 = "" ∧
       (⟨"WS", none, 3, some 4, "N", "", "", "", "", "ws9"⟩ : LogRow).b2000 = "" ∧
       (⟨"WS", none, 3, some 4, "N", "", "", "", "", "ws9"⟩ : LogRow).bold = "") :=
  ⟨by decide, logView_forced_blank dbC2 _ (by decide) (Or.inr (by decide))⟩

/-! Left-outer-join multiplicity lemmas for the consolidated view. -/

theorem optMatches_ne_nil {α} (k : String) (fk : α → Option String)
    (table : List α) : optMatches k fk table ≠ [] := by
  simp only [optMatches]
  cases hf : (table.filter fun b => fk b == some k) with
  | nil => simp [hf]
  | cons a l => simp [hf]

theorem optMatches_singleton {α} {k : String} {fk : α → Option String}
    {table : List α} (h : (table.filter fun b => fk b == some k).length ≤ 1) :
    ∃ m, optMatches k fk table = [m] := by
  cases hf : (table.filter fun b => fk b == some k) with
  | nil => exact ⟨none, by simp [optMatches, hf]⟩
  | cons a l =>
    cases l with
    | nil => exact ⟨some a, by simp [optMatches, hf]⟩
    | cons a2 l2 =>
      rw [hf] at h
      simp only [List.length_cons] at h
      omega

theorem scanRows_id {db : DB} {d : DICOM} : ∀ r ∈ scanRows db d, r.id = d.id := by
  intro r hr
  simp only [scanRows, List.mem_flatMap, List.mem_map] at hr
  obtain ⟨b, _, t, _, bo, _, b1, _, b2, _, heq⟩ := hr
  exact heq ▸ rfl

theorem exists_mem_scanRows (db : DB) (d : DICOM) :
    ∃ r ∈ scanRows db d, r.id = d.id := by
  obtain ⟨b, hb⟩ :=
    List.exists_mem_of_ne_nil _ (optMatches_ne_nil d.id BIDS.dicom_id db.bids)
  obtain ⟨t, ht⟩ :=
    List.exists_mem_of_ne_nil _ (optMatches_ne_nil d.id Deriv.dicom_id db.t1ws)
  obtain ⟨bo, hbo⟩ :=
    List.exists_mem_of_ne_nil _ (optMatches_ne_nil d.id Deriv.dicom_id db.bolds)
  obtain ⟨b1, hb1⟩ :=
    List.exists_mem_of_ne_nil _
      (optMatches_ne_nil d.id TagRow.dicom_id (b1000View db.dwis))
  obtain ⟨b2, hb2⟩ :=
    List.exists_mem_of_ne_nil _
      (optMatches_ne_nil d.id TagRow.dicom_id (b2000View db.dwis))
  refine ⟨mkLogRow d b t bo b1 b2, ?_, rfl⟩
  simp only [scanRows, List.mem_flatMap, List.mem_map]
  exact ⟨b, hb, t, ht, bo, hbo, b1, hb1, b2, hb2, rfl⟩

theorem scanRows_singleton {db : DB} {d : DICOM}
    (h1 : (db.bids.filter fun b => BIDS.dicom_id b == some d.id).length ≤ 1)
    (h2 : (db.t1ws.filter fun b => Deriv.dicom_id b == some d.id).length ≤ 1)
    (h3 : (db.bolds.filter fun b => Deriv.dicom_id b == some d.id).length ≤ 1)
    (h4 : ((b1000View db.dwis).filter
      fun b => TagRow.dicom_id b == some d.id).length ≤ 1)
    (h5 : ((b2000View db.dwis).filter
      fun b => TagRow.dicom_id b == some d.id).length ≤ 1) :
    ∃ b t bo b1 b2, scanRows db d = [mkLogRow d b t bo b1 b2] := by
  obtain ⟨b, hb⟩ := optMatches_singleton h1
  obtain ⟨t, ht⟩ := optMatches_singleton h2
  obtain ⟨bo, hbo⟩ := optMatches_singleton h3
  obtain ⟨b1, hb1⟩ := optMatches_singleton h4
  obtain ⟨b2, hb2⟩ := optMatches_singleton h5
  exact ⟨b, t, bo, b1, b2, by simp [scanRows, hb, ht, hbo, hb1, hb2]⟩

theorem countP_flat_eq_zero {db : DB} {s : String} :
    ∀ {l : List DICOM}, (∀ x ∈ l, x.id ≠ s) →
      (l.flatMap (scanRows db)).countP (fun r => r.id == s) = 0 := by
  intro l h
  rw [List.countP_eq_zero]
  intro r hr
  simp only [List.mem_flatMap] at hr
  obtain ⟨x, hx, hrx⟩ := hr
  have hid := scanRows_id r hrx
  simp [hid, h x hx]

theorem one_le_countP_flat {db : DB} {d : DICOM} :
    ∀ {l : List DICOM}, d ∈ l →
      1 ≤ (l.flatMap (scanRows db)).countP (fun r => r.id == d.id) := by
  intro l hl
  induction l with
  | nil => cases hl
  | cons x xs ih =>
    rw [List.flatMap_cons, List.countP_append]
    rcases List.mem_cons.mp hl with rfl | hmem
    · obtain ⟨r, hr, hid⟩ := exists_mem_scanRows db d
      have hpos : 0 < (scanRows db d).countP (fun r => r.id == d.id) :=
        List.countP_pos_iff.mpr ⟨r, hr, by simp [hid]⟩
      omega
    · have := ih hmem
      omega

/-- At-most-one-match-per-key property of a foreign-key column, the
multiplicity condition under which a left outer join cannot duplicate
left-hand rows. -/
def atMostOnePer {α} (fk : α → Option String) (table : List α) : Prop :=
  ∀ k : String, (table.filter fun b => fk b == some k).length ≤ 1

theorem countP_flat_eq_one {db : DB}
    (H1 : atMostOnePer BIDS.dicom_id db.bids)
    (H2 : atMostOnePer Deriv.dicom_id db.t1ws)
    (H3 : atMostOnePer Deriv.dicom_id db.bolds)
    (H4 : atMostOnePer TagRow.dicom_id (b1000View db.dwis))
    (H5 : atMostOnePer TagRow.dicom_id (b2000View db.dwis)) :
    ∀ {l : List DICOM}, (l.map DICOM.id).Nodup → ∀ {d}, d ∈ l →
      (l.flatMap (scanRows db)).countP (fun r => r.id == d.id) = 1 := by
  intro l
  induction l with
  | nil => intro _ d hd; cases hd
  | cons x xs ih =>
    intro hnd d hd
    rw [List.map_cons, List.nodup_cons] at hnd
    rw [List.flatMap_cons, List.countP_append]
    rcases List.mem_cons.mp hd with rfl | hmem
    · obtain ⟨b, t, bo, b1, b2, hrow⟩ :=
        scanRows_singleton (H1 d.id) (H2 d.id) (H3 d.id) (H4 d.id) (H5 d.id)
      have htail : (xs.flatMap (scanRows db)).countP (fun r => r.id == d.id) = 0 := by
        apply countP_flat_eq_zero
        intro x2 hx2 heq
        exact hnd.1 (heq ▸ List.mem_map_of_mem DICOM.id hx2)
      rw [hrow, htail]
      have hid : (mkLogRow d b t bo b1 b2).id = d.id := rfl
      simp [List.countP_cons, hid]
    · have hne : x.id ≠ d.id := by
        intro heq
        exact hnd.1 (heq ▸ List.mem_map_of_mem DICOM.id hmem)
      have hhead : (scanRows db x).countP (fun r => r.id == d.id) = 0 := by
        rw [List.countP_eq_zero]
        intro r hr
        have hid := scanRows_id r hr
        simp [hid, hne]
      rw [hhead, ih hnd.2 hmem]

/-- Concrete database refuting C1 as stated: one scan owning two T1w
derivatives, as the one-to-many schema permits. -/
def dbC1 : DB :=
  { dicoms := [⟨"ns1", "NS", 1, none⟩], bids := [],
    t1ws := [⟨"t1A", some "ns1"⟩, ⟨"t1B", some "ns1"⟩],
    bolds := [], dwis := [] }

/-- Counterexample to C1 as stated: scan `ns1` exists, yet the view holds
two rows for it (the left join multiplies rows when a scan owns two
derivatives), so "exactly one row per Scan" fails on this database. -/
theorem logView_one_row_cex :
    "ns1" ∈ dbC1.dicoms.map DICOM.id ∧
      (logView dbC1).countP (fun r => r.id == "ns1") ≠ 1 := by
  decide

/-- C1 (amended): every scan always has at least one consolidated-view row
regardless of whether any BIDS or derivative row exists (left-outer-join
completeness); the count is exactly one when scan ids are unique (the
primary key) and each joined table has at most one matching row per scan. -/
theorem logView_row_per_scan (db : DB) :
    (∀ d ∈ db.dicoms, 1 ≤ (logView db).countP (fun r => r.id == d.id)) ∧
    ((db.dicoms.map DICOM.id).Nodup →
      atMostOnePer BIDS.dicom_id db.bids →
      atMostOnePer Deriv.dicom_id db.t1ws →
      atMostOnePer Deriv.dicom_id db.bolds →
      atMostOnePer TagRow.dicom_id (b1000View db.dwis) →
      atMostOnePer TagRow.dicom_id (b2000View db.dwis) →
      ∀ d ∈ db.dicoms, (logView db).countP (fun r => r.id == d.id) = 1) := by
  constructor
  · intro d hd
    rw [logView,
      (sortStable_perm logLe (logJoinRows db)).countP_eq (fun r => r.id == d.id),
      logJoinRows]
    exact one_le_countP_flat hd
  · intro hnd H1 H2 H3 H4 H5 d hd
    rw [logView,
      (sortStable_perm logLe (logJoinRows db)).countP_eq (fun r => r.id == d.id),
      logJoinRows]
    exact countP_flat_eq_one H1 H2 H3 H4 H5 hnd hd

theorem atMostOnePer_of_short {α} {fk : α → Option String} {table : List α}
    (h : table.length ≤ 1) : atMostOnePer fk table :=
  fun _ => le_trans (List.length_filter_le _ _) h

/-- Concrete database for the C1 witness: one scan with one partner in each
joined table. -/
def dbC1w : DB :=
  { dicoms := [⟨"uc3", "UC", 1, some 11⟩],
    bids := [⟨some "uc3", some 2, some true⟩],
    t1ws := [⟨"uc3t", some "uc3"⟩],
    bolds := [],
    dwis := [⟨"uc3_b1000_dwi", some "uc3"⟩, ⟨"uc3_b2000_dwi", some "uc3"⟩] }

/-- Witness for C1 (amended) at `dbC1w`. -/
theorem logView_row_per_scan_witness :
    1 ≤ (logView dbC1w).countP (fun r => r.id == "uc3") ∧
      (logView dbC1w).countP (fun r => r.id == "uc3") = 1 :=
  ⟨(logView_row_per_scan dbC1w).1 ⟨"uc3", "UC", 1, some 11⟩ (by decide),
   (logView_row_per_scan dbC1w).2 (by decide)
     (atMostOnePer_of_short (by decide)) (atMostOnePer_of_short (by decide))
     (atMostOnePer_of_short (by decide)) (atMostOnePer_of_short (by decide))
     (atMostOnePer_of_short (by decide)) ⟨"uc3", "UC", 1, some 11⟩ (by decide)⟩

/-! Reconciliation merge: column order. -/

/-- Counterexample to C4 as stated: already at the concrete input
`([], [])` the merged output's column order is not the claimed one with
`notes` appended last. -/
theorem merge_columns_cex :
    ¬ (merge_logs [] []).fst =
      ["site", "date", "dicom", "bids", "bids_validation",
       "T1w", "b1000", "b2000", "bold", "id", "notes"] := by
  decide

/-- C4 (amended): for every pair of merge inputs the merged output is
projected to the fixed published column order `site, date, notes, dicom,
bids, bids_validation, T1w, b1000, b2000, bold, id` — with `notes` placed
third, between `date` and `dicom`, not appended last — and every data row
has one cell per column. -/
theorem merge_columns_order (newlog : List LogRow) (old : List OldRow) :
    (merge_logs newlog old).fst =
      ["site", "date", "notes", "dicom", "bids", "bids_validation",
       "T1w", "b1000", "b2000", "bold", "id"] ∧
    ∀ row ∈ (merge_logs newlog old).snd, row.length = 11 := by
  refine ⟨rfl, ?_⟩
  intro row hrow
  simp only [merge_logs, List.mem_map] at hrow
  obtain ⟨r, _, heq⟩ := hrow
  exact heq ▸ rfl

/-- Witness for C4 (amended) at a one-row input. -/
theorem merge_columns_order_witness :
    ((merge_logs [⟨"NS", none, 1, none, "", "", "", "", "", "A"⟩] []).fst =
      ["site", "date", "notes", "dicom", "bids", "bids_validation",
       "T1w", "b1000", "b2000", "bold", "id"]) ∧
    (rowCells ⟨"NS", none, none, 1, none, "", "", "", "", "", "A"⟩).length = 11 :=
  ⟨(merge_columns_order [⟨"NS", none, 1, none, "", "", "", "", "", "A"⟩] []).1,
   (merge_columns_order [⟨"NS", none, 1, none, "", "", "", "", "", "A"⟩] []).2
     (rowCells ⟨"NS", none, none, 1, none, "", "", "", "", "", "A"⟩) (by decide)⟩

/-! Reconciliation merge: id coverage. -/

theorem mergeLeft_fst_mem {newlog : List LogRow} {old : List OldRow} :
    ∀ p ∈ mergeLeft newlog old, p.1 ∈ newlog := by
  intro p hp
  simp only [mergeLeft, List.mem_flatMap] at hp
  obtain ⟨r, hr, hpr⟩ := hp
  revert hpr
  split <;> intro hpr
  · simp only [List.mem_singleton] at hpr
    rw [hpr]
    exact hr
  · simp only [List.mem_map] at hpr
    obtain ⟨o, _, heq⟩ := hpr
    rw [← heq]
    exact hr

theorem mergeLeft_exists {newlog : List LogRow} {old : List OldRow} :
    ∀ r ∈ newlog, ∃ w, (r, w) ∈ mergeLeft newlog old := by
  intro r hr
  by_cases he : (old.filter fun o => o.id == r.id).isEmpty
  · refine ⟨none, ?_⟩
    simp only [mergeLeft, List.mem_flatMap]
    exact ⟨r, hr, by simp [he]⟩
  · obtain ⟨o, ho⟩ :=
      List.exists_mem_of_ne_nil (old.filter fun o => o.id == r.id)
        (fun hnil => he (by rw [hnil]; rfl))
    refine ⟨some o, ?_⟩
    simp only [mergeLeft, List.mem_flatMap]
    refine ⟨r, hr, ?_⟩
    rw [if_neg he]
    exact List.mem_map_of_mem _ ho

theorem mem_mergedRows_iff {newlog : List LogRow} {old : List OldRow}
    {pr : PubRow} : pr ∈ mergedRows newlog old ↔ pr ∈ preMerged newlog old :=
  (sortStable_perm keyLe (preMerged newlog old)).mem_iff

/-- C5: every id present in the new computed view appears in the merged
output, and the id of every old-table row not matched in the new view is
absent from the merged output. -/
theorem merge_id_coverage (newlog : List LogRow) (old : List OldRow) :
    (∀ r ∈ newlog, r.id ∈ (mergedRows newlog old).map PubRow.id) ∧
    (∀ o ∈ old, o.id ∉ newlog.map LogRow.id →
      o.id ∉ (mergedRows newlog old).map PubRow.id) := by
  constructor
  · intro r hr
    obtain ⟨w, hw⟩ := mergeLeft_exists r hr
    have hpm : toPubRow r w ∈ preMerged newlog old := by
      simp only [preMerged, List.mem_map]
      exact ⟨(r, w), hw, rfl⟩
    exact List.mem_map_of_mem PubRow.id (mem_mergedRows_iff.mpr hpm)
  · intro o ho hnot hmem
    simp only [List.mem_map] at hmem
    obtain ⟨pr, hpr, hpid⟩ := hmem
    have hpm := mem_mergedRows_iff.mp hpr
    simp only [preMerged, List.mem_map] at hpm
    obtain ⟨p, hp, heq⟩ := hpm
    have h1 : p.1 ∈ newlog := mergeLeft_fst_mem p hp
    have h2 : pr.id = p.1.id := heq ▸ rfl
    apply hnot
    rw [← hpid, h2]
    exact List.mem_map_of_mem LogRow.id h1

/-- Concrete merge inputs for the C5 witness (Scenario E shape). -/
def newC5 : List LogRow := [⟨"NS", none, 1, none, "", "", "", "", "", "A"⟩]

/-- Old published table for the C5 witness. -/
def oldC5 : List OldRow := [⟨"GONE99", some "x"⟩]

/-- Witness for C5: id `A` of the new view survives, id `GONE99` of the old
table is dropped. -/
theorem merge_id_coverage_witness :
    "A" ∈ (mergedRows newC5 oldC5).map PubRow.id ∧
      "GONE99" ∉ (mergedRows newC5 oldC5).map PubRow.id :=
  ⟨(merge_id_coverage newC5 oldC5).1 ⟨"NS", none, 1, none, "", "", "", "", "", "A"⟩
     (by decide),
   (merge_id_coverage newC5 oldC5).2 ⟨"GONE99", some "x"⟩ (by decide) (by decide)⟩

/-! Reconciliation merge: notes preservation. -/

theorem filter_eq_of_nodup {old : List OldRow} (h : (old.map OldRow.id).Nodup)
    (s : String) :
    old.filter (fun o => o.id == s) =
      (match old.find? (fun o => o.id == s) with
       | none => []
       | some o => [o]) := by
  induction old with
  | nil => rfl
  | cons o rest ih =>
    rw [List.map_cons, List.nodup_cons] at h
    simp only [List.filter_cons, List.find?_cons]
    cases hid : (o.id == s) with
    | true =>
      have hrest : rest.filter (fun o2 => o2.id == s) = [] := by
        rw [List.filter_eq_nil_iff]
        intro o2 h2 hb
        apply h.1
        rw [eq_of_beq hid, ← eq_of_beq hb]
        exact List.mem_map_of_mem OldRow.id h2
      simp [hrest]
    | false =>
      simpa using ih h.2

theorem mergeLeft_of_nodup {old : List OldRow} (h : (old.map OldRow.id).Nodup)
    (newlog : List LogRow) :
    mergeLeft newlog old =
      newlog.map (fun r => (r, old.find? (fun o => o.id == r.id))) := by
  induction newlog with
  | nil => rfl
  | cons r rest ih =>
    simp only [mergeLeft, List.flatMap_cons, List.map_cons] at ih ⊢
    rw [ih, filter_eq_of_nodup h r.id]
    cases hf : old.find? (fun o => o.id == r.id) with
    | none => simp
    | some o => simp

/-- Concrete merge inputs refuting C3 as stated: the old table carries two
rows with the same id. -/
def newC3 : List LogRow := [⟨"NS", none, 1, none, "", "", "", "", "", "A"⟩]

/-- Old published table with a duplicated id for the C3 counterexample. -/
def oldC3 : List OldRow := [⟨"A", some "n1"⟩, ⟨"A", some "n2"⟩]

/-- Counterexample to C3 as stated: the single new row with id `A` appears
twice in the merged output (pandas left merge duplicates a left row once
per matching right row), so "each row of the new view appears exactly
once" fails for these inputs. -/
theorem merge_notes_cex :
    newC3.countP (fun r => r.id == "A") = 1 ∧
      (mergedRows newC3 oldC3).countP (fun r => r.id == "A") = 2 := by
  decide

/-- C3 (amended): when the old published table has at most one row per id,
the merged output consists of exactly one row per row of the new view (up
to the `(site, date)` reordering), each carrying the notes of the old row
with the same id when one exists. -/
theorem merge_preserves_notes (newlog : List LogRow) (old : List OldRow)
    (h : (old.map OldRow.id).Nodup) :
    (mergedRows newlog old).Perm
      (newlog.map (fun r => toPubRow r (old.find? (fun o => o.id == r.id)))) := by
  have h2 : preMerged newlog old =
      newlog.map (fun r => toPubRow r (old.find? (fun o => o.id == r.id))) := by
    rw [preMerged, mergeLeft_of_nodup h, List.map_map]
    rfl
  exact (sortStable_perm keyLe (preMerged newlog old)).trans
    (by rw [h2])

/-- Concrete merge inputs for the C3 witness (Scenario D shape). -/
def newC3w : List LogRow :=
  [⟨"UC", some 5, 3, some 4, "Y", "Y", "N", "N", "N", "UC003"⟩,
   ⟨"NS", none, 1, none, "", "", "", "", "", "NS001"⟩]

/-- Old published table with unique ids for the C3 witness. -/
def oldC3w : List OldRow := [⟨"UC003", some "re-scan requested"⟩]

/-- Witness for C3 (amended) at concrete inputs with unique old ids. -/
theorem merge_preserves_notes_witness :
    (oldC3w.map OldRow.id).Nodup ∧
      (mergedRows newC3w oldC3w).Perm
        (newC3w.map (fun r => toPubRow r (oldC3w.find? (fun o => o.id == r.id)))) :=
  ⟨by decide, merge_preserves_notes newC3w oldC3w (by decide)⟩

/-! Reconciliation merge: ordering and stability. -/

/-- C6: the merged output is sorted ascending by the `(site, date)` key
(missing dates last within a site, as pandas sorts NaN), and the sort is
stable: for every key value, the subsequence of rows carrying that key is
exactly the corresponding subsequence of the pre-sort merge output. -/
theorem merge_sorted_stable (newlog : List LogRow) (old : List OldRow) :
    (mergedRows newlog old).Pairwise (fun r1 r2 => keyLe r1 r2 = true) ∧
    ∀ k : String × Option Day,
      (mergedRows newlog old).filter (fun r => decide ((r.site, r.date) = k)) =
        (preMerged newlog old).filter (fun r => decide ((r.site, r.date) = k)) := by
  constructor
  · exact sortStable_sorted keyLe_trans keyLe_total (preMerged newlog old)
  · intro k
    apply filter_sortStable
    intro a x hpa hpx
    have ea : (a.site, a.date) = k := of_decide_eq_true hpa
    have ex : (x.site, x.date) = k := of_decide_eq_true hpx
    exact keyLe_of_eq (congrArg Prod.fst (ea.trans ex.symm))
      (congrArg Prod.snd (ea.trans ex.symm))

/-! Reconciliation merge: missing dates sort last and render empty. -/

/-- C10: in the merged output, within a site every row whose date is absent
comes after all rows of that site with a present date (pandas sorts NaN
keys last before filling), and the rendered date cell of such a row is the
empty string. -/
theorem merge_missing_dates_last (newlog : List LogRow) (old : List OldRow) :
    (mergedRows newlog old).Pairwise
      (fun r1 r2 => r1.site = r2.site → r1.date = none → r2.date = none) ∧
    ∀ r ∈ mergedRows newlog old, r.date = none →
      fillCell (colVal r "date") = CellV.s "" := by
  constructor
  · refine (sortStable_sorted keyLe_trans keyLe_total (preMerged newlog old)).imp ?_
    intro a b hle hsite hnone
    rw [keyLe, if_pos hsite, hnone] at hle
    cases hb : b.date with
    | none => rfl
    | some x =>
      rw [hb] at hle
      exact absurd hle (by simp [dateLe])
  · intro r hr hnone
    have hc : colVal r "date" = r.date.map CellV.d := rfl
    rw [hc, hnone]
    rfl

/-- Concrete merge input for the C10 witness: one site with one dated and
one undated scan. -/
def newC10 : List LogRow :=
  [⟨"NS", none, 2, none, "", "", "", "", "", "B"⟩,
   ⟨"NS", some 7, 1, none, "", "", "", "", "", "A"⟩]

/-- Witness for C10: the undated row of site `NS` renders an empty date
cell (and sits after the dated row in the merged output). -/
theorem merge_missing_dates_last_witness :
    fillCell (colVal ⟨"NS", none, none, 2, none, "", "", "", "", "", "B"⟩ "date") =
      CellV.s "" :=
  (merge_missing_dates_last newC10 []).2
    ⟨"NS", none, none, 2, none, "", "", "", "", "", "B"⟩ (by decide) (by decide)

end PhantomDB
